import Mathlib

/-!
Verification of the record-output formatter of azure-spring-discovery
(src/cli/output.go) against its specification.

The Go file renders a homogeneous list of records either as indented JSON
(writeJson) or as CSV with reflection-derived headers (writCSV), with a
scalar stringifier (toString) for the tabular cells.  This development is a
shallow embedding: reflect values become the inductive type Value, the
reflected type of the generic parameter T becomes GoType, record instances
become GoStruct (a list of named field values, Go FieldByName semantics),
and the stream is replaced by the string the code would write.  Errors and
panics are explicit constructors of WResult.
-/

namespace Cli

/-! ## Decimal digits (model of the Go standard library formatting) -/

/-- Decimal digit character for a digit value; values above nine cannot occur
at the call sites (arguments are always taken mod ten or bounded). -/
def digitChar (n : ℕ) : Char :=
  if n = 0 then '0' else if n = 1 then '1' else if n = 2 then '2'
  else if n = 3 then '3' else if n = 4 then '4' else if n = 5 then '5'
  else if n = 6 then '6' else if n = 7 then '7' else if n = 8 then '8'
  else if n = 9 then '9' else '?'

/-- Fuel-bounded decimal digit list of a natural number, most significant
digit first.  The fuel is only there to make the recursion structural; it is
always called with enough fuel. -/
def natDigitsAux : ℕ → ℕ → List Char
  | 0, _ => []
  | fuel + 1, n =>
    if n < 10 then [digitChar n]
    else natDigitsAux fuel (n / 10) ++ [digitChar (n % 10)]

/-- Decimal digit list of a natural number (model of the strconv decimal
rendering used by strconv.FormatInt radix ten). -/
def natDigits (n : ℕ) : List Char := natDigitsAux (n + 1) n

/-- Decimal string of a natural number. -/
def natRepr (n : ℕ) : String := String.mk (natDigits n)

/-- Model of strconv.FormatInt(i, 10): optional minus sign followed by the
decimal digits of the absolute value. -/
def formatInt (i : ℤ) : String :=
  String.mk ((if i < 0 then ['-'] else []) ++ natDigits i.natAbs)

/-! ## Floating-point values

A Go float64/float32 is either NaN, an infinity, a negative zero, or a
finite value; every finite double is exactly a (dyadic) rational, which the
model carries exactly.  Go's formatting routines convert the exact value of
the binary float, rounding to nearest with ties to even. -/

inductive GoFloat where
  | finite (q : ℚ)
  | negZero
  | nan
  | posInf
  | negInf
deriving DecidableEq

/-- Round a rational to the nearest integer, ties to even (the rounding Go's
strconv applies to the exact value of a float when a fixed number of decimals
is requested). -/
def roundHalfEven (q : ℚ) : ℤ :=
  let f : ℤ := ⌊q⌋
  let r : ℚ := q - (f : ℚ)
  if r < 1/2 then f
  else if (1:ℚ)/2 < r then f + 1
  else if f % 2 = 0 then f else f + 1

/-- Two-digit zero-padded decimal rendering of a value below one hundred. -/
def pad2 (m : ℕ) : List Char := [digitChar (m / 10), digitChar (m % 10)]

/-- Model of fmt.Sprintf with verb %.2f: sign of the value, then the
magnitude rounded to exactly two decimal places; NaN and the infinities
print their names, as the fmt package does. -/
def formatFloat2 (f : GoFloat) : String :=
  match f with
  | .nan => "NaN"
  | .posInf => "+Inf"
  | .negInf => "-Inf"
  | .negZero => "-0.00"
  | .finite q =>
    let n : ℕ := (roundHalfEven (|q| * 100)).toNat
    String.mk ((if q < 0 then ['-'] else []) ++ natDigits (n / 100) ++ '.' :: pad2 (n % 100))

/-! ## The numeric output patterns of specification section 8, property 2 -/

/-- Decimal digit character test. -/
def isDigitCh (c : Char) : Bool := '0' ≤ c ∧ c ≤ '9'

/-- Match for one or more decimal digits and nothing else. -/
def allDigits (l : List Char) : Bool := !l.isEmpty && l.all isDigitCh

/-- Match for zero or more digits, then a point, then exactly two digits
(the tail of the fixed-point float pattern after its first digit). -/
def numTail : List Char → Bool
  | [] => false
  | c :: rest =>
    if c = '.' then
      match rest with
      | [d1, d2] => isDigitCh d1 && isDigitCh d2
      | _ => false
    else isDigitCh c && numTail rest

/-- Match for one or more digits, then a point, then exactly two digits. -/
def digitsThen : List Char → Bool
  | [] => false
  | c :: r => isDigitCh c && numTail r

/-- Whole-text match for the float pattern: an optional minus sign, one or
more digits, a decimal point, exactly two digits. -/
def floatPat : List Char → Bool
  | [] => false
  | c :: rest => if c = '-' then digitsThen rest else digitsThen (c :: rest)

/-- Whole-text match for the integer pattern: an optional minus sign and one
or more digits, with no decimal point. -/
def intPat : List Char → Bool
  | [] => false
  | c :: rest => if c = '-' then allDigits rest else allDigits (c :: rest)

/-! ## JSON documents

The Json tree is the image of encoding/json's Marshal on the values the spec
allows in records; num carries the already-rendered numeric text. -/

inductive Json where
  | null
  | bool (b : Bool)
  | num (s : String)
  | str (s : String)
  | arr (l : List Json)
  | obj (l : List (String × Json))

/-- Hexadecimal digit character, lowercase, as the encoding/json encoder
emits in escape sequences. -/
def hexDigitCh (n : ℕ) : Char :=
  if n = 10 then 'a' else if n = 11 then 'b' else if n = 12 then 'c'
  else if n = 13 then 'd' else if n = 14 then 'e' else if n = 15 then 'f'
  else digitChar n

/-- Escaping of one character inside a JSON string literal, following the
encoding/json encoder with its default HTML escaping: quote and backslash
get a backslash escape, newline, carriage return and tab their short forms,
other control characters a lowercase u-escape, the HTML-sensitive characters
and the line and paragraph separators their fixed u-escapes, and everything
else is copied verbatim. -/
def escChar (c : Char) : List Char :=
  if c = '"' then ['\\', '"']
  else if c = '\\' then ['\\', '\\']
  else if c = '\n' then ['\\', 'n']
  else if c = '\r' then ['\\', 'r']
  else if c = '\t' then ['\\', 't']
  else if c.toNat < 32 then ['\\', 'u', '0', '0', hexDigitCh (c.toNat / 16), hexDigitCh (c.toNat % 16)]
  else if c = '<' then ['\\', 'u', '0', '0', '3', 'c']
  else if c = '>' then ['\\', 'u', '0', '0', '3', 'e']
  else if c = '&' then ['\\', 'u', '0', '0', '2', '6']
  else if c.toNat = 0x2028 then ['\\', 'u', '2', '0', '2', '8']
  else if c.toNat = 0x2029 then ['\\', 'u', '2', '0', '2', '9']
  else [c]

/-- JSON string literal for a string: opening quote, escaped characters,
closing quote. -/
def jsonQuote (s : String) : List Char :=
  '"' :: (s.data.map escChar).flatten ++ ['"']

/-- Shape of one escaped-character unit inside a JSON string literal: either
one plain character that is no quote and no backslash, or a backslash escape
whose characters after the escaped position are no quote and no backslash.
The indent scanner copies such a unit verbatim and stays inside the string. -/
def escUnitP (u : List Char) : Prop :=
  (∃ c, u = [c] ∧ c ≠ '"' ∧ c ≠ '\\') ∨
  (∃ c rest, u = '\\' :: c :: rest ∧ ∀ d ∈ rest, d ≠ '"' ∧ d ≠ '\\')

mutual

/-- Compact (no whitespace) JSON text of a document, exactly the byte
sequence json.Marshal produces for the corresponding Go value. -/
def compact : Json → List Char
  | .null => 'n' :: 'u' :: 'l' :: 'l' :: []
  | .bool true => 't' :: 'r' :: 'u' :: 'e' :: []
  | .bool false => 'f' :: 'a' :: 'l' :: 's' :: 'e' :: []
  | .num s => s.data
  | .str s => jsonQuote s
  | .arr [] => ['[', ']']
  | .arr (x :: xs) => '[' :: (compact x ++ compactArrRest xs ++ [']'])
  | .obj [] => ['\x7b', '\x7d']
  | .obj ((k, v) :: kvs) =>
    '\x7b' :: (jsonQuote k ++ ':' :: compact v ++ compactObjRest kvs ++ ['\x7d'])

/-- Compact text of the remaining elements of a JSON array, each preceded by
a comma. -/
def compactArrRest : List Json → List Char
  | [] => []
  | x :: xs => ',' :: (compact x ++ compactArrRest xs)

/-- Compact text of the remaining members of a JSON object, each preceded by
a comma. -/
def compactObjRest : List (String × Json) → List Char
  | [] => []
  | (k, v) :: kvs => ',' :: (jsonQuote k ++ ':' :: compact v ++ compactObjRest kvs)

end

/-- Newline followed by the two-space indentation for a nesting depth, as
json.Indent's newline helper emits with an empty line prefix and a two-space
indent string. -/
def nlIndent (d : ℕ) : List Char :=
  '\n' :: (List.replicate d [' ', ' ']).flatten

/-- A character that the json.Indent scanner treats as an uninteresting
literal byte: not a bracket, comma, colon, quote, backslash or whitespace. -/
def litOk (c : Char) : Bool :=
  ¬(c = '\x7b' ∨ c = '\x7d' ∨ c = '[' ∨ c = ']' ∨ c = ',' ∨ c = ':' ∨
    c = '"' ∨ c = '\\' ∨ c = ' ' ∨ c = '\t' ∨ c = '\n' ∨ c = '\r')

/-- A nonempty literal text made of uninteresting bytes, as every rendered
JSON number is. -/
def cleanLit (s : String) : Bool :=
  !s.data.isEmpty && s.data.all litOk

mutual

/-- Wellformedness of a JSON document for the indent argument: every num
payload is a nonempty run of literal bytes.  Every document the record
marshaller produces is clean. -/
def cleanJson : Json → Bool
  | .num s => cleanLit s
  | .arr l => cleanArr l
  | .obj l => cleanObj l
  | _ => true

/-- Cleanliness of every element of an array. -/
def cleanArr : List Json → Bool
  | [] => true
  | x :: xs => cleanJson x && cleanArr xs

/-- Cleanliness of every member value of an object. -/
def cleanObj : List (String × Json) → Bool
  | [] => true
  | (_, v) :: kvs => cleanJson v && cleanObj kvs

end

mutual

/-- Pretty-printed JSON text at a given nesting depth, written from the
specification's words: two spaces of indentation per nesting level, one
element or member per line, a space after the colon of each member, and
empty containers printed closed. -/
def specPretty : Json → ℕ → List Char
  | .null, _ => 'n' :: 'u' :: 'l' :: 'l' :: []
  | .bool true, _ => 't' :: 'r' :: 'u' :: 'e' :: []
  | .bool false, _ => 'f' :: 'a' :: 'l' :: 's' :: 'e' :: []
  | .num s, _ => s.data
  | .str s, _ => jsonQuote s
  | .arr [], _ => ['[', ']']
  | .arr (x :: xs), d =>
    '[' :: (nlIndent (d + 1) ++ specPretty x (d + 1) ++ specPrettyArrRest xs (d + 1) ++
      nlIndent d ++ [']'])
  | .obj [], _ => ['\x7b', '\x7d']
  | .obj ((k, v) :: kvs), d =>
    '\x7b' :: (nlIndent (d + 1) ++ jsonQuote k ++ ':' :: ' ' :: specPretty v (d + 1) ++
      specPrettyObjRest kvs (d + 1) ++ nlIndent d ++ ['\x7d'])

/-- Pretty text of the remaining elements of an array, each on its own
indented line after a comma. -/
def specPrettyArrRest : List Json → ℕ → List Char
  | [], _ => []
  | x :: xs, d => ',' :: (nlIndent d ++ specPretty x d ++ specPrettyArrRest xs d)

/-- Pretty text of the remaining members of an object, each on its own
indented line after a comma. -/
def specPrettyObjRest : List (String × Json) → ℕ → List Char
  | [], _ => []
  | (k, v) :: kvs, d =>
    ',' :: (nlIndent d ++ jsonQuote k ++ ':' :: ' ' :: specPretty v d ++ specPrettyObjRest kvs d)

end

/-! ## The json.Indent scanner loop

State and step function of encoding/json's Indent as the Go loop runs over
the compact input one byte at a time: out is the text emitted so far, depth
the current indentation depth, needIndent whether an opening bracket is
waiting for its first element, inStr and esc track string literals (where
every byte is scanContinue and is copied verbatim). -/

structure IndentSt where
  out : List Char
  depth : ℕ
  needIndent : Bool
  inStr : Bool
  esc : Bool
deriving DecidableEq

/-- Flush of a pending indentation: what json.Indent does when needIndent is
set and the next token is not a closing bracket. -/
def flushSt (st : IndentSt) : IndentSt :=
  if st.needIndent then
    { st with needIndent := false, depth := st.depth + 1,
              out := st.out ++ nlIndent (st.depth + 1) }
  else st

/-- One step of the json.Indent loop on one input character. -/
def stepIndent (st : IndentSt) (c : Char) : IndentSt :=
  if st.inStr then
    if st.esc then { st with out := st.out ++ [c], esc := false }
    else if c = '\\' then { st with out := st.out ++ [c], esc := true }
    else if c = '"' then { st with out := st.out ++ [c], inStr := false }
    else { st with out := st.out ++ [c] }
  else if c = ' ' ∨ c = '\t' ∨ c = '\n' ∨ c = '\r' then st
  else
    let st := if st.needIndent ∧ ¬(c = '\x7d' ∨ c = ']') then flushSt st else st
    if c = '\x7b' ∨ c = '[' then { st with out := st.out ++ [c], needIndent := true }
    else if c = ',' then { st with out := st.out ++ [c] ++ nlIndent st.depth }
    else if c = ':' then { st with out := st.out ++ [c, ' '] }
    else if c = '\x7d' ∨ c = ']' then
      if st.needIndent then { st with out := st.out ++ [c], needIndent := false }
      else { st with depth := st.depth - 1, out := st.out ++ nlIndent (st.depth - 1) ++ [c] }
    else if c = '"' then { st with out := st.out ++ [c], inStr := true, esc := false }
    else { st with out := st.out ++ [c] }

/-- Output of json.Indent (empty prefix, two-space indent) on a character
sequence, starting from the empty state. -/
def indentRun (cs : List Char) : List Char :=
  (cs.foldl stepIndent ⟨[], 0, false, false, false⟩).out

/-! ## Reflect values and the scalar stringifier -/

/-- A reflect.Value as toString inspects it, one constructor per group of
kinds the source distinguishes: the zero Value (kind Invalid), strings, the
signed integer kinds, the unsigned integer kinds, the float kinds, booleans,
a struct of type time.Time (carrying the text its String method returns and
the RFC 3339 text its MarshalJSON emits), and any other composite or
unsupported kind. -/
inductive Value where
  | invalid
  | str (s : String)
  | int (i : ℤ)
  | uint (n : ℕ)
  | float (f : GoFloat)
  | bool (b : Bool)
  | time (display : String) (rfc3339 : String)
  | other (tyName : String)
deriving DecidableEq

/-- Model of toString (src/cli/output.go lines 145-164): the switch on the
value's kind, then the time.Time type test, then the empty-string default.
Unsigned integer kinds match no switch case and no constructor of the time
test, so they reach the default. -/
def toString (v : Value) : String :=
  match v with
  | .invalid => "<invalid Value>"
  | .str s => s
  | .int i => formatInt i
  | .float f => formatFloat2 f
  | .bool b => if b then "true" else "false"
  | .time display _ => display
  | .uint _ => ""
  | .other _ => ""

/-! ## Record shapes and instances -/

/-- A struct field together with its csv tag, as writCSV collects them; the
tag component is reflect.StructTag.Get applied to the key csv (empty when
the field carries no such tag). -/
structure FieldWithTag where
  name : String
  tag : String
deriving DecidableEq

abbrev FieldWithTags := List FieldWithTag

/-- Model of FieldWithTags.headers: the tag when it is nonempty, the field
name otherwise. -/
def headers (f : FieldWithTags) : List String :=
  f.map (fun fwt => if fwt.tag.length = 0 then fwt.name else fwt.tag)

/-- Model of FieldWithTags.fields: the field names. -/
def fields (f : FieldWithTags) : List String :=
  f.map (fun fwt => fwt.name)

/-- The reflected type of the generic parameter T: a struct type with its
declared fields in declaration order, a pointer type, or any non-struct
kind (named for readability only). -/
inductive GoType where
  | structT (fs : FieldWithTags)
  | ptrTo (t : GoType)
  | scalar (kindName : String)
deriving DecidableEq

/-- One level of pointer dereference on a type, as writCSV's single
reflect.Ptr test performs. -/
def derefOnce : GoType → GoType
  | .ptrTo t => t
  | t => t

/-- Field enumeration of a type: NumField and Field succeed only on a struct
kind; on every other kind reflect panics, modelled as none. -/
def structFields : GoType → Option FieldWithTags
  | .structT fs => some fs
  | _ => none

/-- A record instance as the row loop sees it after its one level of pointer
dereference: the named field values in declaration order. -/
structure GoStruct where
  fields : List (String × Value)
deriving DecidableEq

/-- Model of reflect.Value.FieldByName on a struct value: the first field
with the given name, or the zero Value (kind Invalid) when the struct has no
such field. -/
def fieldByName (r : GoStruct) (name : String) : Value :=
  match r.fields.find? (fun p => p.1 = name) with
  | some p => p.2
  | none => Value.invalid

/-- One CSV data row (src/cli/output.go lines 129-132): per descriptor name,
look the field up on the record and stringify it. -/
def rowFor (names : List String) (r : GoStruct) : List String :=
  names.map (fun name => toString (fieldByName r name))

/-- The content matrix writCSV assembles before writing: the header row from
the type alone, then one row per record; none models the reflect panic on a
non-struct type. -/
def csvContent (ty : GoType) (records : List GoStruct) : Option (List (List String)) :=
  match structFields (derefOnce ty) with
  | none => none
  | some fwts => some (headers fwts :: records.map (rowFor (fields fwts)))

/-! ## The csv writer (encoding/csv with comma delimiter, UseCRLF false) -/

/-- Model of unicode.IsSpace: the full Unicode White_Space set Go's tables
list, namely the ASCII space characters, next line, the no-break space, the
Ogham space mark, the en-quad through hair-space range, the line and
paragraph separators, the narrow no-break space, the medium mathematical
space and the ideographic space. -/
def isGoSpace (c : Char) : Bool :=
  c = ' ' ∨ c = '\t' ∨ c = '\n' ∨ c = '\x0b' ∨ c = '\x0c' ∨ c = '\r' ∨
    c = '\u0085' ∨ c = '\u00A0' ∨ c = '\u1680' ∨
    (0x2000 ≤ c.toNat ∧ c.toNat ≤ 0x200A) ∨
    c = '\u2028' ∨ c = '\u2029' ∨ c = '\u202F' ∨ c = '\u205F' ∨ c = '\u3000'

/-- Model of csv.Writer.fieldNeedsQuotes: the empty field is unquoted, the
literal backslash-dot is quoted, any field containing the comma delimiter, a
quote or a line break is quoted, and otherwise a field starting with a space
character is quoted. -/
def fieldNeedsQuotes (s : String) : Bool :=
  if s = "" then false
  else if s = "\\." then true
  else if s.data.any (fun c => c = ',' ∨ c = '"' ∨ c = '\r' ∨ c = '\n') then true
  else match s.data with
       | [] => false
       | c :: _ => isGoSpace c

/-- Quoted form of a field: quotes doubled, everything else (including line
breaks, since UseCRLF is false) copied verbatim. -/
def quoteField (s : String) : List Char :=
  '"' :: (s.data.map (fun c => if c = '"' then ['"', '"'] else [c])).flatten ++ ['"']

/-- Rendering of one field, quoted exactly when fieldNeedsQuotes says so. -/
def renderField (s : String) : List Char :=
  if fieldNeedsQuotes s then quoteField s else s.data

/-- Rendering of one record line: fields joined by the comma delimiter and a
terminating newline (UseCRLF is false). -/
def renderRow (row : List String) : List Char :=
  (List.intercalate [','] (row.map renderField)) ++ ['\n']

/-- Rendering of the whole content matrix, row by row, as the flushed csv
writer emits it. -/
def renderCsv (content : List (List String)) : List Char :=
  (content.map renderRow).flatten

/-! ## JSON marshalling of records -/

/-- Option-valued map over a list, stopping at the first failure. -/
def mapOptM (f : α → Option β) : List α → Option (List β)
  | [] => some []
  | a :: l =>
    match f a, mapOptM f l with
    | some b, some bs => some (b :: bs)
    | _, _ => none

/-- Least exponent k with den dividing ten to the k, when one at most den
exists (it does whenever den comes from a binary float). -/
def decExp (den : ℕ) : Option ℕ :=
  (List.range (den + 1)).find? (fun k => den ∣ 10 ^ k)

/-- Decimal text of m divided by ten to the k. -/
def decimalShift (m k : ℕ) : List Char :=
  if k = 0 then natDigits m
  else
    natDigits (m / 10 ^ k) ++ '.' ::
      (List.replicate (k - (natDigits (m % 10 ^ k)).length) '0' ++ natDigits (m % 10 ^ k))

/-- Modelled from the spec: the structured-text native rendering of a finite
nonzero float (the encoding/json encoder via strconv.AppendFloat), which is
outside this repository.  Go emits the shortest decimal that round-trips;
the model emits the exact decimal expansion of the value, which exists for
every value a binary float can take and uses the same character class
(digits, minus sign, decimal point).  The fallback branch is unreachable for
rationals that are values of floats. -/
def goFloatText (q : ℚ) : String :=
  match decExp q.den with
  | some k =>
    String.mk ((if q.num < 0 then ['-'] else []) ++ decimalShift (q.num.natAbs * 10 ^ k / q.den) k)
  | none =>
    String.mk ((if q.num < 0 then ['-'] else []) ++ natDigits (q.num.natAbs / q.den))

/-- Modelled from the spec: the structured-text serialization of one field
value by the standard encoding/json encoder (outside this repository).
Strings marshal as JSON strings, signed and unsigned integers and finite
floats as JSON numbers, negative zero as the number -0, booleans as JSON
booleans, and a time.Time as its RFC 3339 JSON string.  NaN and the
infinities are unsupported values (Marshal returns an error), and the
composite kinds are outside the record model of specification section 3
(scalar fields only), so both are none here. -/
def valueToJson : Value → Option Json
  | .invalid => none
  | .str s => some (.str s)
  | .int i => some (.num (formatInt i))
  | .uint n => some (.num (natRepr n))
  | .float (.finite q) => some (.num (goFloatText q))
  | .float .negZero => some (.num "-0")
  | .float _ => none
  | .bool b => some (.bool b)
  | .time _ rfc => some (.str rfc)
  | .other _ => none

/-- JSON object for one record: the field identifiers, in declaration order,
as keys (the csv tag plays no part here). -/
def recToJson (r : GoStruct) : Option Json :=
  (mapOptM (fun p => (valueToJson p.2).map (fun j => (p.1, j))) r.fields).map Json.obj

/-- JSON array for the record slice, one object per record. -/
def recordsToJson (records : List GoStruct) : Option Json :=
  (mapOptM recToJson records).map Json.arr

/-! ## The three entry points -/

/-- Outcome of a Write call on the pure model: the text written on success,
a serialization error, or a reflect panic.  Stream errors cannot occur on
the modelled in-memory destination. -/
inductive WResult where
  | ok (out : String)
  | error
  | panicked
deriving DecidableEq

/-- Model of writeJson (src/cli/output.go lines 82-99): marshal the slice,
indent the result with an empty prefix and a two-space indent, write the
indented bytes. -/
def writeJson (records : List GoStruct) : WResult :=
  match recordsToJson records with
  | none => .error
  | some j => .ok (String.mk (indentRun (compact j)))

/-- Model of writCSV (src/cli/output.go lines 101-143): discover the columns
from the type (one pointer dereference, then the struct fields, panicking on
any other kind), then write the header row and one row per record through
the csv writer. -/
def writCSV (ty : GoType) (records : List GoStruct) : WResult :=
  match csvContent ty records with
  | none => .panicked
  | some content => .ok (String.mk (renderCsv content))

/-- Model of strings.TrimSpace: drop the Unicode white-space characters
from both ends. -/
def goTrimSpace (s : String) : String :=
  String.mk (((s.data.dropWhile isGoSpace).reverse.dropWhile isGoSpace).reverse)

/-- ASCII part of strings.ToLower (the selectors compared against are pure
ASCII). -/
def goToLower (s : String) : String :=
  String.mk (s.data.map (fun c =>
    if 65 ≤ c.toNat ∧ c.toNat ≤ 90 then Char.ofNat (c.toNat + 32) else c))

/-- Model of Output.Write (src/cli/output.go lines 70-80): normalize the
format selector by trimming and lowercasing, then dispatch; the empty
selector and every unrecognized selector leave err nil and write nothing. -/
def Write (format : String) (ty : GoType) (records : List GoStruct) : WResult :=
  match goToLower (goTrimSpace format) with
  | "" => .ok ""
  | "json" => writeJson records
  | "csv" => writCSV ty records
  | _ => .ok ""

/-! # Theorems -/

/-- C4: the scalar stringifier is total (it is a Lean function into String)
and follows the policy table: the zero Value prints the literal invalid-value
text, text is returned unmodified, signed integers print in decimal, floats
with two decimals, booleans as true or false, a timestamp as its default
display text, and the unsigned and composite kinds fall through to the empty
string. -/
theorem toString_policy_total :
    toString Value.invalid = "<invalid Value>" ∧
    (∀ s, toString (Value.str s) = s) ∧
    (∀ i, toString (Value.int i) = formatInt i) ∧
    (∀ f, toString (Value.float f) = formatFloat2 f) ∧
    (∀ b, toString (Value.bool b) = if b then "true" else "false") ∧
    (∀ disp rfc, toString (Value.time disp rfc) = disp) ∧
    (∀ n, toString (Value.uint n) = "") ∧
    (∀ ty, toString (Value.other ty) = "") :=
  ⟨rfl, fun _ => rfl, fun _ => rfl, fun _ => rfl, fun _ => rfl,
   fun _ _ => rfl, fun _ => rfl, fun _ => rfl⟩

/-- C9: unsigned integer values are not matched by the signed-integer case
of the switch and reach the unsupported-kind default, so they stringify to
the empty string, never to a decimal rendering. -/
theorem uint_stringifies_empty :
    (∀ n, toString (Value.uint n) = "") ∧
    (∀ i, toString (Value.int i) = formatInt i) ∧
    toString (Value.uint 5) ≠ "5" :=
  ⟨fun _ => rfl, fun _ => rfl, by decide⟩

/-- C1 (counterexample): a record lacking the declared field Name gets the
literal invalid-value text in its cell, not the empty string the claim
states. -/
theorem missing_field_cell_not_empty :
    rowFor ["Name"] ⟨[]⟩ = ["<invalid Value>"] ∧ rowFor ["Name"] ⟨[]⟩ ≠ [""] := by
  decide

/-- C1 (amended): for every record instance that lacks a field named in the
descriptor sequence, the per-cell lookup yields the zero (absent) Value and
the cell stringifies to the literal invalid-value text rather than failing
or raising an error. -/
theorem missing_field_cell_invalid_text (r : GoStruct) (name : String)
    (h : r.fields.find? (fun p => p.1 = name) = none) :
    fieldByName r name = Value.invalid ∧
    toString (fieldByName r name) = "<invalid Value>" := by
  unfold fieldByName
  rw [h]
  exact ⟨rfl, rfl⟩

/-- C1 (witness): the amended statement applied to a concrete record with no
fields at all. -/
theorem missing_field_cell_invalid_text_witness :
    (GoStruct.mk []).fields.find? (fun p => p.1 = "Name") = none ∧
    (fieldByName ⟨[]⟩ "Name" = Value.invalid ∧
      toString (fieldByName ⟨[]⟩ "Name") = "<invalid Value>") :=
  ⟨rfl, missing_field_cell_invalid_text ⟨[]⟩ "Name" rfl⟩

/-- C2: Write normalizes the selector by trimming and lowercasing; a
normalized json dispatches to the structured renderer, a normalized csv to
the tabular renderer, and every other normalized value (the empty string
included) succeeds writing nothing. -/
theorem write_format_dispatch (format : String) (ty : GoType) (records : List GoStruct) :
    (goToLower (goTrimSpace format) = "json" → Write format ty records = writeJson records) ∧
    (goToLower (goTrimSpace format) = "csv" → Write format ty records = writCSV ty records) ∧
    (goToLower (goTrimSpace format) ≠ "json" → goToLower (goTrimSpace format) ≠ "csv" →
      Write format ty records = WResult.ok "") := by
  refine ⟨fun h => ?_, fun h => ?_, fun h1 h2 => ?_⟩
  · unfold Write; rw [h]; rfl
  · unfold Write; rw [h]; rfl
  · unfold Write
    split
    · rfl
    · simp_all
    · simp_all
    · rfl

/-- C2 (witness): a selector with surrounding whitespace and upper case
dispatches to the structured renderer; a garbage selector on a non-empty
record list yields success with zero bytes. -/
theorem write_format_dispatch_witness :
    (goToLower (goTrimSpace "  JSON ") = "json" ∧
      Write "  JSON " (GoType.scalar "int") [] = writeJson []) ∧
    (goToLower (goTrimSpace " json") = "json" ∧
      Write " json" (GoType.scalar "int") [] = writeJson []) ∧
    (goToLower (goTrimSpace "yaml") ≠ "json" ∧ goToLower (goTrimSpace "yaml") ≠ "csv" ∧
      Write "yaml" (GoType.scalar "int") [⟨[]⟩] = WResult.ok "") :=
  ⟨⟨by decide, (write_format_dispatch "  JSON " (GoType.scalar "int") []).1 (by decide)⟩,
   ⟨by decide, (write_format_dispatch " json" (GoType.scalar "int") []).1 (by decide)⟩,
   ⟨by decide, by decide,
    (write_format_dispatch "yaml" (GoType.scalar "int") [⟨[]⟩]).2.2 (by decide) (by decide)⟩⟩

/-- C5: a field with identifier Name and csv override full_name keeps the
key Name in structured output while the tabular header uses full_name, and a
field with no override gets its identifier verbatim as header cell. -/
theorem header_override_vs_json_key :
    headers [⟨"Name", "full_name"⟩] = ["full_name"] ∧
    (∀ s, recToJson ⟨[("Name", Value.str s)]⟩ = some (Json.obj [("Name", Json.str s)])) ∧
    (∀ n : String, headers [⟨n, ""⟩] = [n]) :=
  ⟨by decide, fun _ => rfl, fun _ => rfl⟩

/-- C6: the header row of the tabular content depends only on the type: for
any two record lists it is the same row, the one derived from the (once
dereferenced) type's fields. -/
theorem csv_header_type_only (ty : GoType) (rs1 rs2 : List GoStruct)
    (c1 c2 : List (List String))
    (h1 : csvContent ty rs1 = some c1) (h2 : csvContent ty rs2 = some c2) :
    c1.head? = c2.head? ∧
    c1.head? = Option.map headers (structFields (derefOnce ty)) := by
  unfold csvContent at h1 h2
  cases hs : structFields (derefOnce ty) with
  | none => rw [hs] at h1; exact absurd h1 (by simp)
  | some fwts =>
    rw [hs] at h1 h2
    simp only [Option.some.injEq] at h1 h2
    subst h1; subst h2
    exact ⟨rfl, rfl⟩

/-- C6 (witness): the header-row invariance applied to an empty and a
one-record list over a concrete struct type. -/
theorem csv_header_type_only_witness :
    csvContent (GoType.structT [⟨"Name", "full_name"⟩, ⟨"Age", ""⟩]) [] =
      some [["full_name", "Age"]] ∧
    csvContent (GoType.structT [⟨"Name", "full_name"⟩, ⟨"Age", ""⟩])
        [⟨[("Name", Value.str "Ann"), ("Age", Value.int 30)]⟩] =
      some [["full_name", "Age"], ["Ann", "30"]] ∧
    ([["full_name", "Age"]] : List (List String)).head? =
        ([["full_name", "Age"], ["Ann", "30"]] : List (List String)).head? ∧
      ([["full_name", "Age"]] : List (List String)).head? =
        Option.map headers (structFields (derefOnce
          (GoType.structT [⟨"Name", "full_name"⟩, ⟨"Age", ""⟩]))) :=
  ⟨by decide, by decide,
   csv_header_type_only (GoType.structT [⟨"Name", "full_name"⟩, ⟨"Age", ""⟩])
     [] [⟨[("Name", Value.str "Ann"), ("Age", Value.int 30)]⟩]
     [["full_name", "Age"]] [["full_name", "Age"], ["Ann", "30"]]
     (by decide) (by decide)⟩

/-- C7: on the empty record list with format csv the output is exactly the
header row followed by its line terminator, and the call succeeds. -/
theorem csv_empty_records_header_only (ty : GoType) (fwts : FieldWithTags)
    (h : structFields (derefOnce ty) = some fwts) :
    Write "csv" ty [] = WResult.ok (String.mk (renderRow (headers fwts))) := by
  have hd : Write "csv" ty [] = writCSV ty [] := rfl
  rw [hd]
  unfold writCSV csvContent
  rw [h]
  simp [renderCsv]

/-- C7 (witness): the header-only output on a concrete struct type. -/
theorem csv_empty_records_header_only_witness :
    structFields (derefOnce (GoType.structT [⟨"Name", "full_name"⟩, ⟨"Age", ""⟩])) =
      some [⟨"Name", "full_name"⟩, ⟨"Age", ""⟩] ∧
    Write "csv" (GoType.structT [⟨"Name", "full_name"⟩, ⟨"Age", ""⟩]) [] =
      WResult.ok (String.mk (renderRow (headers [⟨"Name", "full_name"⟩, ⟨"Age", ""⟩]))) :=
  ⟨rfl, csv_empty_records_header_only (GoType.structT [⟨"Name", "full_name"⟩, ⟨"Age", ""⟩])
    [⟨"Name", "full_name"⟩, ⟨"Age", ""⟩] rfl⟩

/-- C10: in tabular mode the field enumeration panics (rather than returning
an error) exactly when the once-dereferenced type is not a struct; on a
struct it never panics. -/
theorem csv_nonstruct_panics (ty : GoType) (records : List GoStruct) :
    (structFields (derefOnce ty) = none → Write "csv" ty records = WResult.panicked) ∧
    (∀ fs, structFields (derefOnce ty) = some fs →
      Write "csv" ty records ≠ WResult.panicked) := by
  have hd : Write "csv" ty records = writCSV ty records := rfl
  constructor
  · intro h
    rw [hd]
    unfold writCSV csvContent
    rw [h]
  · intro fs h
    rw [hd]
    unfold writCSV csvContent
    rw [h]
    simp

/-- C10 (witness): an integer record type panics; a struct record type does
not. -/
theorem csv_nonstruct_panics_witness :
    (structFields (derefOnce (GoType.scalar "int")) = none →
      Write "csv" (GoType.scalar "int") [] = WResult.panicked) ∧
    Write "csv" (GoType.scalar "int") [] = WResult.panicked ∧
    Write "csv" (GoType.structT []) [] ≠ WResult.panicked :=
  ⟨(csv_nonstruct_panics (GoType.scalar "int") []).1,
   (csv_nonstruct_panics (GoType.scalar "int") []).1 rfl,
   (csv_nonstruct_panics (GoType.structT []) []).2 [] rfl⟩

/-! ## Digit and pattern lemmas for the numeric formats -/

theorem digitChar_isDigit (n : ℕ) (h : n < 10) : isDigitCh (digitChar n) = true := by
  interval_cases n <;> decide

theorem natDigitsAux_digits : ∀ fuel n : ℕ, ∀ c ∈ natDigitsAux fuel n, isDigitCh c = true := by
  intro fuel
  induction fuel with
  | zero => intro n c hc; simp [natDigitsAux] at hc
  | succ fuel ih =>
    intro n c hc
    unfold natDigitsAux at hc
    split at hc
    · next h =>
      simp only [List.mem_singleton] at hc
      exact hc ▸ digitChar_isDigit n h
    · rcases List.mem_append.1 hc with h1 | h1
      · exact ih _ c h1
      · simp only [List.mem_singleton] at h1
        exact h1 ▸ digitChar_isDigit _ (Nat.mod_lt _ (by omega))

theorem natDigits_digits (n : ℕ) : ∀ c ∈ natDigits n, isDigitCh c = true :=
  natDigitsAux_digits (n + 1) n

theorem natDigits_ne_nil (n : ℕ) : natDigits n ≠ [] := by
  unfold natDigits natDigitsAux
  split
  · simp
  · simp

theorem allDigits_natDigits (n : ℕ) : allDigits (natDigits n) = true := by
  unfold allDigits
  rw [Bool.and_eq_true]
  constructor
  · simpa [List.isEmpty_iff] using natDigits_ne_nil n
  · exact List.all_eq_true.2 (natDigits_digits n)

theorem isDigitCh_ne_dot (c : Char) (h : isDigitCh c = true) : c ≠ '.' := by
  rintro rfl; exact absurd h (by decide)

theorem isDigitCh_ne_minus (c : Char) (h : isDigitCh c = true) : c ≠ '-' := by
  rintro rfl; exact absurd h (by decide)

theorem numTail_append (ds : List Char) (d1 d2 : Char)
    (hds : ∀ c ∈ ds, isDigitCh c = true)
    (h1 : isDigitCh d1 = true) (h2 : isDigitCh d2 = true) :
    numTail (ds ++ '.' :: [d1, d2]) = true := by
  induction ds with
  | nil => simp [numTail, h1, h2]
  | cons c cs ih =>
    have hc : isDigitCh c = true := hds c (List.mem_cons_self c cs)
    rw [List.cons_append]
    unfold numTail
    rw [if_neg (by exact_mod_cast isDigitCh_ne_dot c hc)]
    rw [hc, ih (fun d hd => hds d (List.mem_cons_of_mem c hd))]
    rfl

theorem digitsThen_append (ds : List Char) (d1 d2 : Char)
    (hne : ds ≠ []) (hds : ∀ c ∈ ds, isDigitCh c = true)
    (h1 : isDigitCh d1 = true) (h2 : isDigitCh d2 = true) :
    digitsThen (ds ++ '.' :: [d1, d2]) = true := by
  cases ds with
  | nil => exact absurd rfl hne
  | cons c cs =>
    rw [List.cons_append]
    simp only [digitsThen]
    rw [hds c (List.mem_cons_self c cs),
      numTail_append cs d1 d2 (fun d hd => hds d (List.mem_cons_of_mem c hd)) h1 h2]
    rfl

theorem floatPat_cons_minus (rest : List Char) : floatPat ('-' :: rest) = digitsThen rest := by
  simp [floatPat]

theorem intPat_cons_minus (rest : List Char) : intPat ('-' :: rest) = allDigits rest := by
  simp [intPat]

theorem floatPat_build (sign ds : List Char) (d1 d2 : Char)
    (hs : sign = [] ∨ sign = ['-'])
    (hne : ds ≠ []) (hds : ∀ c ∈ ds, isDigitCh c = true)
    (h1 : isDigitCh d1 = true) (h2 : isDigitCh d2 = true) :
    floatPat (sign ++ ds ++ '.' :: [d1, d2]) = true := by
  rcases hs with rfl | rfl
  · rw [List.nil_append]
    cases ds with
    | nil => exact absurd rfl hne
    | cons c cs =>
      rw [List.cons_append]
      simp only [floatPat]
      rw [if_neg (by exact_mod_cast isDigitCh_ne_minus c (hds c (List.mem_cons_self c cs)))]
      rw [← List.cons_append]
      exact digitsThen_append (c :: cs) d1 d2 (by simp) hds h1 h2
  · rw [List.singleton_append, List.cons_append, floatPat_cons_minus]
    exact digitsThen_append ds d1 d2 hne hds h1 h2

theorem intPat_build (sign ds : List Char)
    (hs : sign = [] ∨ sign = ['-'])
    (hne : ds ≠ []) (hds : ∀ c ∈ ds, isDigitCh c = true) :
    intPat (sign ++ ds) = true := by
  have hall : allDigits ds = true := by
    unfold allDigits
    rw [Bool.and_eq_true]
    exact ⟨by simpa [List.isEmpty_iff] using hne, List.all_eq_true.2 hds⟩
  rcases hs with rfl | rfl
  · rw [List.nil_append]
    cases ds with
    | nil => exact absurd rfl hne
    | cons c cs =>
      simp only [intPat]
      rw [if_neg (by exact_mod_cast isDigitCh_ne_minus c (hds c (List.mem_cons_self c cs)))]
      exact hall
  · rw [List.singleton_append, intPat_cons_minus]
    exact hall

/-- C3 (counterexample): NaN is a floating-point value, and its stringified
form NaN does not match the fixed-point pattern the claim states for every
floating-point value. -/
theorem scalar_float_pattern_counterexample :
    toString (Value.float GoFloat.nan) = "NaN" ∧
    floatPat (toString (Value.float GoFloat.nan)).data = false := by
  decide

/-- C3 (amended): for every finite floating-point value (negative zero
included) the stringified form matches an optional minus sign, digits, a
decimal point and exactly two digits; for every signed integer value it
matches an optional minus sign and digits, with no decimal point. -/
theorem scalar_number_formats :
    (∀ q : ℚ, floatPat (toString (Value.float (GoFloat.finite q))).data = true) ∧
    floatPat (toString (Value.float GoFloat.negZero)).data = true ∧
    (∀ i : ℤ, intPat (toString (Value.int i)).data = true) := by
  refine ⟨fun q => ?_, by decide, fun i => ?_⟩
  · show floatPat (formatFloat2 (GoFloat.finite q)).data = true
    unfold formatFloat2
    show floatPat ((if q < 0 then ['-'] else []) ++ _ ++ '.' :: pad2 _) = true
    set n : ℕ := (roundHalfEven (|q| * 100)).toNat with hn
    have h100 : n % 100 < 100 := Nat.mod_lt _ (by omega)
    refine floatPat_build _ _ _ _ ?_ (natDigits_ne_nil _) (natDigits_digits _) ?_ ?_
    · by_cases hq : q < 0 <;> simp [hq]
    · exact digitChar_isDigit _ (by omega)
    · exact digitChar_isDigit _ (Nat.mod_lt _ (by omega))
  · show intPat (formatInt i).data = true
    unfold formatInt
    refine intPat_build _ _ ?_ (natDigits_ne_nil _) (natDigits_digits _)
    by_cases hi : i < 0 <;> simp [hi]

/-! ## Single-step lemmas for the json.Indent loop

Every lemma fixes the scanner state to an explicit record so that the run
lemmas below can chain them with rewriting alone. -/

theorem step_inStr_plain (o : List Char) (d : ℕ) (c : Char)
    (h1 : c ≠ '\\') (h2 : c ≠ '"') :
    stepIndent ⟨o, d, false, true, false⟩ c = ⟨o ++ [c], d, false, true, false⟩ := by
  simp [stepIndent, h1, h2]

theorem step_inStr_esc (o : List Char) (d : ℕ) (c : Char) :
    stepIndent ⟨o, d, false, true, true⟩ c = ⟨o ++ [c], d, false, true, false⟩ := by
  simp [stepIndent]

theorem step_bslash (o : List Char) (d : ℕ) :
    stepIndent ⟨o, d, false, true, false⟩ '\\' = ⟨o ++ ['\\'], d, false, true, true⟩ := by
  simp [stepIndent]

theorem step_closeQ (o : List Char) (d : ℕ) :
    stepIndent ⟨o, d, false, true, false⟩ '"' = ⟨o ++ ['"'], d, false, false, false⟩ := by
  simp [stepIndent]

theorem step_openQ (o : List Char) (d : ℕ) (ni : Bool) :
    stepIndent ⟨o, d, ni, false, false⟩ '"' =
      ⟨(if ni then o ++ nlIndent (d + 1) else o) ++ ['"'],
        if ni then d + 1 else d, false, true, false⟩ := by
  cases ni <;> simp [stepIndent, flushSt]

theorem step_open (o : List Char) (d : ℕ) (ni : Bool) (c : Char)
    (hc : c = '\x7b' ∨ c = '[') :
    stepIndent ⟨o, d, ni, false, false⟩ c =
      ⟨(if ni then o ++ nlIndent (d + 1) else o) ++ [c],
        if ni then d + 1 else d, true, false, false⟩ := by
  rcases hc with rfl | rfl <;> cases ni <;> simp [stepIndent, flushSt]

theorem step_comma (o : List Char) (d : ℕ) :
    stepIndent ⟨o, d, false, false, false⟩ ',' =
      ⟨o ++ [','] ++ nlIndent d, d, false, false, false⟩ := by
  simp [stepIndent, flushSt]

theorem step_colon (o : List Char) (d : ℕ) :
    stepIndent ⟨o, d, false, false, false⟩ ':' =
      ⟨o ++ [':', ' '], d, false, false, false⟩ := by
  simp [stepIndent, flushSt]

theorem step_close (o : List Char) (d : ℕ) (c : Char) (hc : c = '\x7d' ∨ c = ']') :
    stepIndent ⟨o, d, false, false, false⟩ c =
      ⟨o ++ nlIndent (d - 1) ++ [c], d - 1, false, false, false⟩ := by
  rcases hc with rfl | rfl <;> simp [stepIndent, flushSt]

theorem step_close_empty (o : List Char) (d : ℕ) (c : Char) (hc : c = '\x7d' ∨ c = ']') :
    stepIndent ⟨o, d, true, false, false⟩ c = ⟨o ++ [c], d, false, false, false⟩ := by
  rcases hc with rfl | rfl <;> simp [stepIndent, flushSt]

theorem step_lit (o : List Char) (d : ℕ) (ni : Bool) (c : Char) (hok : litOk c = true) :
    stepIndent ⟨o, d, ni, false, false⟩ c =
      ⟨(if ni then o ++ nlIndent (d + 1) else o) ++ [c],
        if ni then d + 1 else d, false, false, false⟩ := by
  have h := of_decide_eq_true (by simpa [litOk] using hok)
  push_neg at h
  obtain ⟨h1, h2, h3, h4, h5, h6, h7, h8, h9, h10, h11, h12⟩ := h
  cases ni <;>
    simp [stepIndent, flushSt, h1, h2, h3, h4, h5, h6, h7, h8, h9, h10, h11, h12]

/-! ## Escape units of the string encoder -/

theorem digitChar_ne_quote_bslash (n : ℕ) :
    digitChar n ≠ '"' ∧ digitChar n ≠ '\\' := by
  unfold digitChar
  split_ifs <;> decide

theorem hexDigitCh_ne_quote_bslash (n : ℕ) :
    hexDigitCh n ≠ '"' ∧ hexDigitCh n ≠ '\\' := by
  unfold hexDigitCh
  split_ifs <;> first | decide | exact digitChar_ne_quote_bslash n

set_option maxHeartbeats 1600000 in
theorem escChar_escUnit (c : Char) : escUnitP (escChar c) := by
  unfold escChar
  split_ifs with h1 h2 h3 h4 h5 h6 h7 h8 h9 h10 h11
  · exact Or.inr ⟨'"', [], rfl, by simp⟩
  · exact Or.inr ⟨'\\', [], rfl, by simp⟩
  · exact Or.inr ⟨'n', [], rfl, by simp⟩
  · exact Or.inr ⟨'r', [], rfl, by simp⟩
  · exact Or.inr ⟨'t', [], rfl, by simp⟩
  · refine Or.inr ⟨'u', ['0', '0', hexDigitCh (c.toNat / 16), hexDigitCh (c.toNat % 16)],
      rfl, ?_⟩
    intro d hd
    simp only [List.mem_cons, List.not_mem_nil, or_false] at hd
    rcases hd with rfl | rfl | rfl | rfl
    · decide
    · decide
    · exact hexDigitCh_ne_quote_bslash _
    · exact hexDigitCh_ne_quote_bslash _
  · exact Or.inr ⟨'u', ['0', '0', '3', 'c'], rfl, by decide⟩
  · exact Or.inr ⟨'u', ['0', '0', '3', 'e'], rfl, by decide⟩
  · exact Or.inr ⟨'u', ['0', '0', '2', '6'], rfl, by decide⟩
  · exact Or.inr ⟨'u', ['2', '0', '2', '8'], rfl, by decide⟩
  · exact Or.inr ⟨'u', ['2', '0', '2', '9'], rfl, by decide⟩
  · exact Or.inl ⟨c, rfl, h1, h2⟩

/-! ## Run lemmas: whole chunks of compact input through the loop -/

theorem foldl_plainInStr (cs : List Char) (o : List Char) (d : ℕ)
    (hcs : ∀ c ∈ cs, c ≠ '"' ∧ c ≠ '\\') :
    List.foldl stepIndent ⟨o, d, false, true, false⟩ cs =
      ⟨o ++ cs, d, false, true, false⟩ := by
  induction cs generalizing o with
  | nil => simp
  | cons c rest ih =>
    rw [List.foldl_cons,
      step_inStr_plain o d c (hcs c (List.mem_cons_self c rest)).2
        (hcs c (List.mem_cons_self c rest)).1,
      ih _ (fun x hx => hcs x (List.mem_cons_of_mem c hx))]
    simp

theorem foldl_escUnit (u : List Char) (o : List Char) (d : ℕ) (hu : escUnitP u) :
    List.foldl stepIndent ⟨o, d, false, true, false⟩ u =
      ⟨o ++ u, d, false, true, false⟩ := by
  rcases hu with ⟨c, rfl, h1, h2⟩ | ⟨c, rest, rfl, hrest⟩
  · rw [List.foldl_cons, step_inStr_plain o d c h2 h1]
    simp
  · rw [List.foldl_cons, step_bslash, List.foldl_cons, step_inStr_esc,
      foldl_plainInStr rest _ d hrest]
    simp

theorem foldl_escBody (l : List Char) (o : List Char) (d : ℕ) :
    List.foldl stepIndent ⟨o, d, false, true, false⟩ ((l.map escChar).flatten) =
      ⟨o ++ (l.map escChar).flatten, d, false, true, false⟩ := by
  induction l generalizing o with
  | nil => simp
  | cons c rest ih =>
    rw [List.map_cons, List.flatten_cons, List.foldl_append,
      foldl_escUnit (escChar c) o d (escChar_escUnit c), ih]
    simp

theorem foldl_lit (cs : List Char) (o : List Char) (d : ℕ)
    (hcs : ∀ c ∈ cs, litOk c = true) :
    List.foldl stepIndent ⟨o, d, false, false, false⟩ cs =
      ⟨o ++ cs, d, false, false, false⟩ := by
  induction cs generalizing o with
  | nil => simp
  | cons c rest ih =>
    rw [List.foldl_cons, step_lit o d false c (hcs c (List.mem_cons_self c rest))]
    simp only [if_neg Bool.false_ne_true]
    rw [ih _ (fun x hx => hcs x (List.mem_cons_of_mem c hx))]
    simp

theorem foldl_litFlush (cs : List Char) (o : List Char) (d : ℕ) (ni : Bool)
    (hne : cs ≠ []) (hcs : ∀ c ∈ cs, litOk c = true) :
    List.foldl stepIndent ⟨o, d, ni, false, false⟩ cs =
      ⟨(if ni then o ++ nlIndent (d + 1) else o) ++ cs,
        if ni then d + 1 else d, false, false, false⟩ := by
  cases cs with
  | nil => exact absurd rfl hne
  | cons c rest =>
    rw [List.foldl_cons, step_lit o d ni c (hcs c (List.mem_cons_self c rest)),
      foldl_lit rest _ _ (fun x hx => hcs x (List.mem_cons_of_mem c hx))]
    simp

theorem foldl_jsonQuote (s : String) (o : List Char) (d : ℕ) (ni : Bool) :
    List.foldl stepIndent ⟨o, d, ni, false, false⟩ (jsonQuote s) =
      ⟨(if ni then o ++ nlIndent (d + 1) else o) ++ jsonQuote s,
        if ni then d + 1 else d, false, false, false⟩ := by
  have hfirst : List.foldl stepIndent ⟨o, d, ni, false, false⟩
      ('"' :: (s.data.map escChar).flatten) =
      ⟨(if ni then o ++ nlIndent (d + 1) else o) ++ '"' :: (s.data.map escChar).flatten,
        if ni then d + 1 else d, false, true, false⟩ := by
    rw [List.foldl_cons, step_openQ o d ni, foldl_escBody]
    simp
  unfold jsonQuote
  rw [List.foldl_append, hfirst, List.foldl_cons, step_closeQ]
  simp

/-! ## The indent loop on a whole compact document

The three mutually recursive lemmas run the loop over the compact text of a
value, of an array tail and of an object tail; a pending indentation flag on
entry produces the newline-and-indent of the enclosing container. -/

mutual

theorem foldCompact (j : Json) (o : List Char) (d : ℕ) (ni : Bool)
    (hc : cleanJson j = true) :
    List.foldl stepIndent ⟨o, d, ni, false, false⟩ (compact j) =
      ⟨(if ni then o ++ nlIndent (d + 1) else o) ++ specPretty j (if ni then d + 1 else d),
        if ni then d + 1 else d, false, false, false⟩ := by
  cases j with
  | null =>
    simp only [compact, specPretty]
    exact foldl_litFlush _ o d ni (by simp) (by decide)
  | bool b =>
    cases b <;>
      · simp only [compact, specPretty]
        exact foldl_litFlush _ o d ni (by simp) (by decide)
  | num s =>
    simp only [cleanJson, cleanLit, Bool.and_eq_true, List.all_eq_true,
      Bool.not_eq_true', List.isEmpty_eq_false] at hc
    simp only [compact, specPretty]
    exact foldl_litFlush s.data o d ni hc.1 hc.2
  | str s =>
    simp only [compact, specPretty]
    exact foldl_jsonQuote s o d ni
  | arr l =>
    cases l with
    | nil =>
      simp only [compact, specPretty]
      rw [List.foldl_cons, step_open o d ni '[' (Or.inr rfl), List.foldl_cons,
        step_close_empty _ _ ']' (Or.inr rfl), List.foldl_nil]
      simp
    | cons x xs =>
      simp only [cleanJson, cleanArr, Bool.and_eq_true] at hc
      simp only [compact, specPretty]
      rw [List.foldl_cons, step_open o d ni '[' (Or.inr rfl), List.foldl_append,
        List.foldl_append, foldCompact x _ _ _ hc.1, foldArrRest xs _ _ hc.2,
        List.foldl_cons, step_close _ _ ']' (Or.inr rfl), List.foldl_nil]
      simp
  | obj l =>
    cases l with
    | nil =>
      simp only [compact, specPretty]
      rw [List.foldl_cons, step_open o d ni '\x7b' (Or.inl rfl), List.foldl_cons,
        step_close_empty _ _ '\x7d' (Or.inl rfl), List.foldl_nil]
      simp
    | cons kv kvs =>
      obtain ⟨k, v⟩ := kv
      simp only [cleanJson, cleanObj, Bool.and_eq_true] at hc
      simp only [compact, specPretty]
      rw [List.foldl_cons, step_open o d ni '\x7b' (Or.inl rfl), List.foldl_append,
        List.foldl_append, List.foldl_append, foldl_jsonQuote k _ _ _,
        List.foldl_cons, List.foldl_cons, step_colon _ _, foldCompact v _ _ _ hc.1,
        foldObjRest kvs _ _ hc.2, step_close _ _ '\x7d' (Or.inl rfl), List.foldl_nil]
      simp

theorem foldArrRest (xs : List Json) (o : List Char) (d : ℕ)
    (hc : cleanArr xs = true) :
    List.foldl stepIndent ⟨o, d, false, false, false⟩ (compactArrRest xs) =
      ⟨o ++ specPrettyArrRest xs d, d, false, false, false⟩ := by
  cases xs with
  | nil =>
    simp only [compactArrRest, specPrettyArrRest]
    rw [List.foldl_nil]
    simp
  | cons x xs =>
    simp only [cleanArr, Bool.and_eq_true] at hc
    simp only [compactArrRest, specPrettyArrRest]
    rw [List.foldl_cons, step_comma, List.foldl_append,
      foldCompact x _ _ _ hc.1, foldArrRest xs _ _ hc.2]
    simp

theorem foldObjRest (kvs : List (String × Json)) (o : List Char) (d : ℕ)
    (hc : cleanObj kvs = true) :
    List.foldl stepIndent ⟨o, d, false, false, false⟩ (compactObjRest kvs) =
      ⟨o ++ specPrettyObjRest kvs d, d, false, false, false⟩ := by
  cases kvs with
  | nil =>
    simp only [compactObjRest, specPrettyObjRest]
    rw [List.foldl_nil]
    simp
  | cons kv kvs =>
    obtain ⟨k, v⟩ := kv
    simp only [cleanObj, Bool.and_eq_true] at hc
    simp only [compactObjRest, specPrettyObjRest]
    rw [List.foldl_cons, step_comma, List.foldl_append, List.foldl_append,
      foldl_jsonQuote k _ _ _, List.foldl_cons, step_colon _ _,
      foldCompact v _ _ _ hc.1, foldObjRest kvs _ _ hc.2]
    simp

end

/-- Main refinement step: on a clean document the json.Indent loop rewrites
the compact text into exactly the two-space pretty form. -/
theorem indent_compact (j : Json) (hc : cleanJson j = true) :
    indentRun (compact j) = specPretty j 0 := by
  unfold indentRun
  rw [foldCompact j [] 0 false hc]
  simp

/-! ## Cleanliness of every marshalled document -/

theorem isDigitCh_litOk (c : Char) (h : isDigitCh c = true) : litOk c = true := by
  have h' : '0' ≤ c ∧ c ≤ '9' := by simpa [isDigitCh] using h
  simp only [litOk, decide_eq_true_eq]
  rintro (rfl | rfl | rfl | rfl | rfl | rfl | rfl | rfl | rfl | rfl | rfl | rfl) <;>
    revert h' <;> decide

theorem cleanLit_mk (l : List Char) (hne : l ≠ []) (h : ∀ c ∈ l, litOk c = true) :
    cleanLit (String.mk l) = true := by
  simp only [cleanLit, Bool.and_eq_true, Bool.not_eq_true', List.all_eq_true]
  exact ⟨by simpa [List.isEmpty_eq_false] using hne, h⟩

theorem sign_digits_lit (sign l : List Char) (hs : sign = [] ∨ sign = ['-'])
    (hl : ∀ c ∈ l, litOk c = true) : ∀ c ∈ sign ++ l, litOk c = true := by
  intro c hc
  rcases List.mem_append.1 hc with hm | hm
  · rcases hs with rfl | rfl
    · simp at hm
    · simp only [List.mem_singleton] at hm
      subst hm; decide
  · exact hl c hm

theorem cleanLit_formatInt (i : ℤ) : cleanLit (formatInt i) = true := by
  unfold formatInt
  refine cleanLit_mk _ (fun hemp => natDigits_ne_nil i.natAbs (List.append_eq_nil.1 hemp).2) ?_
  refine sign_digits_lit _ _ ?_ (fun c hc => isDigitCh_litOk c (natDigits_digits _ c hc))
  by_cases hi : i < 0 <;> simp [hi]

theorem cleanLit_natRepr (n : ℕ) : cleanLit (natRepr n) = true := by
  unfold natRepr
  exact cleanLit_mk _ (natDigits_ne_nil n)
    (fun c hc => isDigitCh_litOk c (natDigits_digits _ c hc))

theorem decimalShift_ne_nil (m k : ℕ) : decimalShift m k ≠ [] := by
  unfold decimalShift
  split
  · exact natDigits_ne_nil m
  · exact fun hemp => natDigits_ne_nil _ (List.append_eq_nil.1 hemp).1

theorem decimalShift_lit (m k : ℕ) : ∀ c ∈ decimalShift m k, litOk c = true := by
  intro c hc
  unfold decimalShift at hc
  split at hc
  · exact isDigitCh_litOk c (natDigits_digits _ c hc)
  · rcases List.mem_append.1 hc with hm | hm
    · exact isDigitCh_litOk c (natDigits_digits _ c hm)
    · rcases List.mem_cons.1 hm with rfl | hm2
      · decide
      · rcases List.mem_append.1 hm2 with hm3 | hm3
        · rw [List.eq_of_mem_replicate hm3]; decide
        · exact isDigitCh_litOk c (natDigits_digits _ c hm3)

theorem cleanLit_goFloatText (q : ℚ) : cleanLit (goFloatText q) = true := by
  unfold goFloatText
  have hsign : (if q.num < 0 then ['-'] else []) = [] ∨
      (if q.num < 0 then ['-'] else []) = ['-'] := by
    by_cases hq : q.num < 0 <;> simp [hq]
  split
  · refine cleanLit_mk _
      (fun hemp => decimalShift_ne_nil _ _ (List.append_eq_nil.1 hemp).2) ?_
    exact sign_digits_lit _ _ hsign (decimalShift_lit _ _)
  · refine cleanLit_mk _
      (fun hemp => natDigits_ne_nil _ (List.append_eq_nil.1 hemp).2) ?_
    exact sign_digits_lit _ _ hsign
      (fun c hc => isDigitCh_litOk c (natDigits_digits _ c hc))

theorem valueToJson_clean (v : Value) (j : Json) (h : valueToJson v = some j) :
    cleanJson j = true := by
  cases v with
  | invalid => simp [valueToJson] at h
  | str s => simp [valueToJson] at h; subst h; simp [cleanJson]
  | int i =>
    simp [valueToJson] at h; subst h
    simp only [cleanJson]; exact cleanLit_formatInt i
  | uint n =>
    simp [valueToJson] at h; subst h
    simp only [cleanJson]; exact cleanLit_natRepr n
  | float f =>
    cases f with
    | finite q =>
      simp [valueToJson] at h; subst h
      simp only [cleanJson]; exact cleanLit_goFloatText q
    | negZero => simp [valueToJson] at h; subst h; decide
    | nan => simp [valueToJson] at h
    | posInf => simp [valueToJson] at h
    | negInf => simp [valueToJson] at h
  | bool b => simp [valueToJson] at h; subst h; simp [cleanJson]
  | time disp rfc => simp [valueToJson] at h; subst h; simp [cleanJson]
  | other ty => simp [valueToJson] at h

theorem mapOptM_forall {α β : Type} (f : α → Option β) (P : β → Prop)
    (hf : ∀ a b, f a = some b → P b) :
    ∀ l bs, mapOptM f l = some bs → ∀ b ∈ bs, P b := by
  intro l
  induction l with
  | nil =>
    intro bs h b hb
    simp [mapOptM] at h
    subst h
    simp at hb
  | cons a l ih =>
    intro bs h b hb
    unfold mapOptM at h
    rcases hfa : f a with _ | fb <;> rcases hm : mapOptM f l with _ | bs' <;>
      rw [hfa, hm] at h <;> simp at h
    subst h
    rcases List.mem_cons.1 hb with rfl | hb2
    · exact hf a b hfa
    · exact ih bs' hm b hb2

theorem cleanObj_of (kvs : List (String × Json))
    (h : ∀ kv ∈ kvs, cleanJson kv.2 = true) : cleanObj kvs = true := by
  induction kvs with
  | nil => simp [cleanObj]
  | cons kv kvs ih =>
    obtain ⟨k, v⟩ := kv
    simp only [cleanObj, Bool.and_eq_true]
    exact ⟨h (k, v) (List.mem_cons_self _ _),
      ih (fun x hx => h x (List.mem_cons_of_mem _ hx))⟩

theorem cleanArr_of (xs : List Json)
    (h : ∀ x ∈ xs, cleanJson x = true) : cleanArr xs = true := by
  induction xs with
  | nil => simp [cleanArr]
  | cons x xs ih =>
    simp only [cleanArr, Bool.and_eq_true]
    exact ⟨h x (List.mem_cons_self _ _),
      ih (fun y hy => h y (List.mem_cons_of_mem _ hy))⟩

theorem recToJson_clean (r : GoStruct) (j : Json) (h : recToJson r = some j) :
    cleanJson j = true := by
  unfold recToJson at h
  rcases hm : mapOptM (fun p => (valueToJson p.2).map (fun j => (p.1, j))) r.fields
    with _ | kvs <;> rw [hm] at h <;> simp at h
  subst h
  simp only [cleanJson]
  refine cleanObj_of kvs (mapOptM_forall _ (fun kv => cleanJson kv.2 = true) ?_ _ _ hm)
  intro p b hb
  rcases hv : valueToJson p.2 with _ | j0 <;> rw [hv] at hb <;> simp at hb
  rw [← hb]
  exact valueToJson_clean _ _ hv

theorem recordsToJson_clean (rs : List GoStruct) (j : Json)
    (h : recordsToJson rs = some j) : cleanJson j = true := by
  unfold recordsToJson at h
  rcases hm : mapOptM recToJson rs with _ | objs <;> rw [hm] at h <;> simp at h
  subst h
  simp only [cleanJson]
  exact cleanArr_of objs
    (mapOptM_forall _ (fun o => cleanJson o = true) recToJson_clean _ _ hm)

/-! ## Shape of the marshalled document: keys in declaration order -/

theorem mapOptM_keys (l : List (String × Value)) :
    ∀ bs, mapOptM (fun p => (valueToJson p.2).map (fun j => (p.1, j))) l = some bs →
      bs.map Prod.fst = l.map Prod.fst := by
  induction l with
  | nil =>
    intro bs h
    simp [mapOptM] at h
    subst h
    rfl
  | cons p l ih =>
    intro bs h
    unfold mapOptM at h
    rcases hfa : (valueToJson p.2).map (fun j => (p.1, j)) with _ | b <;>
      rcases hm : mapOptM (fun p => (valueToJson p.2).map (fun j => (p.1, j))) l
        with _ | bs' <;> rw [hfa, hm] at h <;> simp at h
    subst h
    rcases hv : valueToJson p.2 with _ | j0 <;> rw [hv] at hfa <;> simp at hfa
    rw [List.map_cons, List.map_cons, ih bs' hm, ← hfa]

theorem recToJson_obj (r : GoStruct) (o : Json) (h : recToJson r = some o) :
    ∃ kvs, o = Json.obj kvs ∧ kvs.map Prod.fst = r.fields.map Prod.fst := by
  unfold recToJson at h
  rcases hm : mapOptM (fun p => (valueToJson p.2).map (fun j => (p.1, j))) r.fields
    with _ | kvs <;> rw [hm] at h <;> simp at h
  exact ⟨kvs, h.symm, mapOptM_keys _ kvs hm⟩

theorem recordsToJson_forall (rs : List GoStruct) :
    ∀ objs, mapOptM recToJson rs = some objs →
      List.Forall₂ (fun r o => ∃ kvs, o = Json.obj kvs ∧
        kvs.map Prod.fst = r.fields.map Prod.fst) rs objs := by
  induction rs with
  | nil =>
    intro objs h
    simp [mapOptM] at h
    subst h
    exact List.Forall₂.nil
  | cons r rs ih =>
    intro objs h
    unfold mapOptM at h
    rcases hfa : recToJson r with _ | o <;> rcases hm : mapOptM recToJson rs
      with _ | objs' <;> rw [hfa, hm] at h <;> simp at h
    subst h
    exact List.Forall₂.cons (recToJson_obj r o hfa) (ih objs' hm)

theorem recordsToJson_shape (rs : List GoStruct) (j : Json)
    (h : recordsToJson rs = some j) :
    ∃ objs, j = Json.arr objs ∧
      List.Forall₂ (fun r o => ∃ kvs, o = Json.obj kvs ∧
        kvs.map Prod.fst = r.fields.map Prod.fst) rs objs := by
  unfold recordsToJson at h
  rcases hm : mapOptM recToJson rs with _ | objs <;> rw [hm] at h <;> simp at h
  exact ⟨objs, h.symm, recordsToJson_forall rs objs hm⟩

/-- C8: in structured mode the output is the two-space pretty printing of a
JSON array holding one object per input record, with the object keys in the
record's field declaration order.  specPretty is the printer written from
the specification's words (two spaces per nesting level). -/
theorem json_pretty_array (records : List GoStruct) (j : Json)
    (h : recordsToJson records = some j) (ty : GoType) :
    Write "json" ty records = WResult.ok (String.mk (specPretty j 0)) ∧
    ∃ objs, j = Json.arr objs ∧
      List.Forall₂ (fun r o => ∃ kvs, o = Json.obj kvs ∧
        kvs.map Prod.fst = r.fields.map Prod.fst) records objs := by
  constructor
  · have hw : Write "json" ty records = writeJson records := rfl
    rw [hw]
    unfold writeJson
    rw [h]
    simp only [indent_compact j (recordsToJson_clean records j h)]
  · exact recordsToJson_shape records j h

/-- C8 (witness): the two-record scenario of specification section 8,
property 6 marshals to the expected array and pretty-prints it. -/
theorem json_pretty_array_witness :
    recordsToJson [⟨[("Name", Value.str "Ann"), ("Age", Value.int 30)]⟩,
        ⟨[("Name", Value.str "Bo"), ("Age", Value.int 4)]⟩] =
      some (Json.arr [Json.obj [("Name", Json.str "Ann"), ("Age", Json.num "30")],
        Json.obj [("Name", Json.str "Bo"), ("Age", Json.num "4")]]) ∧
    (Write "json" (GoType.structT [⟨"Name", ""⟩, ⟨"Age", ""⟩])
        [⟨[("Name", Value.str "Ann"), ("Age", Value.int 30)]⟩,
          ⟨[("Name", Value.str "Bo"), ("Age", Value.int 4)]⟩] =
      WResult.ok (String.mk (specPretty
        (Json.arr [Json.obj [("Name", Json.str "Ann"), ("Age", Json.num "30")],
          Json.obj [("Name", Json.str "Bo"), ("Age", Json.num "4")]]) 0)) ∧
    ∃ objs, Json.arr [Json.obj [("Name", Json.str "Ann"), ("Age", Json.num "30")],
        Json.obj [("Name", Json.str "Bo"), ("Age", Json.num "4")]] = Json.arr objs ∧
      List.Forall₂ (fun r o => ∃ kvs, o = Json.obj kvs ∧
        kvs.map Prod.fst = r.fields.map Prod.fst)
        [(⟨[("Name", Value.str "Ann"), ("Age", Value.int 30)]⟩ : GoStruct),
          ⟨[("Name", Value.str "Bo"), ("Age", Value.int 4)]⟩] objs) :=
  ⟨rfl, json_pretty_array
    [⟨[("Name", Value.str "Ann"), ("Age", Value.int 30)]⟩,
      ⟨[("Name", Value.str "Bo"), ("Age", Value.int 4)]⟩]
    (Json.arr [Json.obj [("Name", Json.str "Ann"), ("Age", Json.num "30")],
      Json.obj [("Name", Json.str "Bo"), ("Age", Json.num "4")]])
    rfl (GoType.structT [⟨"Name", ""⟩, ⟨"Age", ""⟩])⟩

end Cli
